import Mathlib

/-!
Shallow embedding of the hazard-classification and interpolation core of the
pijao-hazard-dashboard repository (src/config.py, src/mapa_amenaza_pijao.py,
src/pages/1_Estadisticas.py).

Modelling conventions:
* Python floats are modelled by the rationals; a possibly-NaN float is
  modelled by an optional rational, with `none` standing for NaN.
* A bin edge of a threshold table is an optional rational, with `none`
  standing for `np.inf`.
* For increasing bins, `np.digitize(x, bins, right=False)` returns the number
  of bin edges that are `<= x`, and `np.digitize(x, bins, right=True)` the
  number of edges that are `< x`; the models below count exactly that.
-/

/-- Bin edge of a threshold table: a finite rational, or `none` for `np.inf`. -/
abbrev BinEdge := Option ℚ

/-- Possibly-NaN float value: `none` models NaN. -/
abbrev FSValue := Option ℚ

/-- Comparison `edge <= x` for a finite `x`; an infinite edge is never `<= x`. -/
def edgeLe (b : BinEdge) (x : ℚ) : Bool :=
  match b with
  | none => false
  | some q => decide (q ≤ x)

/-- Comparison `edge < x` for a finite `x`; an infinite edge is never `< x`. -/
def edgeLt (b : BinEdge) (x : ℚ) : Bool :=
  match b with
  | none => false
  | some q => decide (q < x)

/-- Model of `np.digitize(x, bins, right=False)` on increasing bins: the number
of bin edges `<= x`. -/
def digitizeLeft (x : ℚ) (bins : List BinEdge) : ℕ :=
  bins.countP (fun b => edgeLe b x)

/-- Model of `np.digitize(x, bins, right=True)` on increasing bins: the number
of bin edges `< x`. -/
def digitizeRight (x : ℚ) (bins : List BinEdge) : ℕ :=
  bins.countP (fun b => edgeLt b x)

/-- Classification scheme: the `bins`/`clases` pair of a threshold dictionary
(`UMBRALES_AMENAZA` in src/config.py, `UMBRALES_FS` in
src/mapa_amenaza_pijao.py). -/
structure Scheme where
  bins : List BinEdge
  clases : List ℤ
  deriving DecidableEq

/-- Default scheme of src/config.py lines 39-58: bins
`[0, 1.0, 1.2, 1.5, 2.0, inf]`, clases `[5, 4, 3, 2, 1]`. -/
def UMBRALES_AMENAZA : Scheme :=
  { bins := [some 0, some 1, some (6/5), some (3/2), some 2, none]
    clases := [5, 4, 3, 2, 1] }

/-- Threshold table of src/mapa_amenaza_pijao.py lines 119-123: same bins and
clases as `UMBRALES_AMENAZA`. -/
def UMBRALES_FS : Scheme :=
  { bins := [some 0, some 1, some (6/5), some (3/2), some 2, none]
    clases := [5, 4, 3, 2, 1] }

/-- Embedding of `clasificar_fs` (src/config.py lines 147-162), generalised
over the scheme it reads from the module-level `UMBRALES_AMENAZA`: NaN maps
to 0; otherwise `idx = np.digitize(x, bins) - 1` is clamped by
`max(0, min(idx, len(clases) - 1))` and used to index `clases`. -/
def clasificar_fs (s : Scheme) (fs : FSValue) : ℤ :=
  match fs with
  | none => 0
  | some x =>
    let idx : ℤ := (digitizeLeft x s.bins : ℤ) - 1
    let idx2 : ℤ := max 0 (min idx ((s.clases.length : ℤ) - 1))
    s.clases.getD idx2.toNat 0

/-- One element of `clasificar_fs_array` (src/config.py lines 165-190): the
output array starts as `uint8` zeros, an element is classified only when it is
neither 0 nor NaN (`valid_mask`), its index is `np.clip(digitize - 1, 0,
len(clases) - 1)`, and the selected class is stored into the `uint8` output
(hence the reduction modulo 256). -/
def clasificar_fs_elem (s : Scheme) (fs : FSValue) : ℤ :=
  match fs with
  | none => 0
  | some x =>
    if x = 0 then 0
    else
      let idx : ℤ := (digitizeLeft x s.bins : ℤ) - 1
      let idx2 : ℤ := min (max idx 0) ((s.clases.length : ℤ) - 1)
      (s.clases.getD idx2.toNat 0) % 256

/-- Embedding of `clasificar_fs_array` (src/config.py lines 165-190), applied
elementwise over the flattened array. -/
def clasificar_fs_array (s : Scheme) (fs : List FSValue) : List ℤ :=
  fs.map (clasificar_fs_elem s)

/-- Embedding of `reclasificar_fs_a_haz` (src/mapa_amenaza_pijao.py lines
262-279) on one cell: `indices = np.digitize(fs, bins, right=True)`, the
output starts at 0 and the loop `for i, clase in enumerate(clases, 1)` writes
`clase` where `indices == i` into a `uint8` array. -/
def reclasificar_fs_a_haz (u : Scheme) (x : ℚ) : ℤ :=
  let idx := digitizeRight x u.bins
  if 1 ≤ idx ∧ idx ≤ u.clases.length then (u.clases.getD (idx - 1) 0) % 256 else 0

/-- Embedding of the fallback `fs_to_h` inside `ensure_haz_num`
(src/mapa_amenaza_pijao.py lines 90-96): NaN stays NaN, otherwise the
hardcoded threshold cascade 1.50 / 1.30 / 1.10 / 1.00 is evaluated. -/
def fs_to_h (fs : FSValue) : Option ℤ :=
  match fs with
  | none => none
  | some x =>
    if (3 : ℚ)/2 ≤ x then some 1
    else if (13 : ℚ)/10 ≤ x then some 2
    else if (11 : ℚ)/10 ≤ x then some 3
    else if 1 ≤ x then some 4
    else some 5

/-- Epsilon floor `1e-10` applied to distances in `interpolar_idw`
(src/mapa_amenaza_pijao.py line 195). -/
def distancia_floor : ℚ := 1 / 10 ^ 10

/-- Square of `distancia_floor`, i.e. `1e-20`: the floor as seen through
squared distances, since `max(d, 1e-10)^2 = max(d^2, 1e-20)` for `d >= 0`. -/
def sq_floor : ℚ := 1 / 10 ^ 20

/-- Raw IDW weights `1.0 / (np.maximum(distances, 1e-10) ** power)`
(src/mapa_amenaza_pijao.py lines 195-198), for one query row of the distance
array returned by the KD-tree query. -/
def idw_raw_weights (power : ℕ) (dists : List ℚ) : List ℚ :=
  dists.map (fun d => 1 / (max d distancia_floor) ^ power)

/-- Normalised IDW weights `weights / weights.sum(axis=1)`
(src/mapa_amenaza_pijao.py line 199), for one query row. -/
def idw_weights (power : ℕ) (dists : List ℚ) : List ℚ :=
  let raw := idw_raw_weights power dists
  raw.map (fun w => w / raw.sum)

/-- One interpolated value `np.sum(weights * valores[indices], axis=1)`
(src/mapa_amenaza_pijao.py line 202), for one query row: the neighbour
distances and the corresponding sample values are given positionally. -/
def idw_row (power : ℕ) (dists vals : List ℚ) : ℚ :=
  (List.zipWith (· * ·) (idw_weights power dists) vals).sum

/-- Squared Euclidean distance between two planar points. -/
def sq_dist (p q : ℚ × ℚ) : ℚ :=
  (p.1 - q.1) ^ 2 + (p.2 - q.2) ^ 2

/-- Insertion step of a stable sort of (distance, index) pairs by distance. -/
def insert_by_dist (x : ℚ × ℕ) : List (ℚ × ℕ) → List (ℚ × ℕ)
  | [] => [x]
  | y :: ys => if x.1 < y.1 then x :: y :: ys else y :: insert_by_dist x ys

/-- Stable insertion sort of (distance, index) pairs by distance. -/
def sort_by_dist (l : List (ℚ × ℕ)) : List (ℚ × ℕ) :=
  l.foldr insert_by_dist []

/-- Model of `cKDTree(puntos).query(q, k)` for one query point: indices of the
`k` samples nearest to `q`. Nearness is compared through squared distances,
which orders points exactly as Euclidean distance does. -/
def k_nearest (pts : List (ℚ × ℚ)) (q : ℚ × ℚ) (k : ℕ) : List ℕ :=
  ((sort_by_dist ((List.range pts.length).map
    (fun i => (sq_dist (pts.getD i (0, 0)) q, i)))).take k).map Prod.snd

/-- Normalised IDW weights computed from squared neighbour distances, the
`power=2` instantiation used by the pipeline (`interpolar_idw` is only invoked
with `power=2`, its default): `1.0/(max(d, 1e-10)**2) = 1.0/max(d**2, 1e-20)`,
so weighting by squared distance with the squared floor reproduces the
source's weights exactly while staying inside the rationals. -/
def idw_weights_sq (sqd : List ℚ) : List ℚ :=
  let raw := sqd.map (fun s => 1 / max s sq_floor)
  raw.map (fun w => w / raw.sum)

/-- Embedding of `interpolar_idw` (src/mapa_amenaza_pijao.py lines 185-204) at
its `power=2` call: for each query location, take the `k = min(10,
len(puntos))` nearest samples, weight them by inverse squared distance with
the epsilon floor, normalise, and return the weighted average of the
neighbour sample values. The function is fallible: with a single sample the
query runs at `k = 1`, for which `cKDTree.query` returns distance and index
arrays squeezed to one dimension, so `weights.sum(axis=1)` raises
`numpy.AxisError` before any value is produced; with an empty sample set the
KD-tree cannot be queried at all. Both error paths (`k <= 1`) are modelled by
`none`. With at least two samples the query arrays are two-dimensional and
the computation proceeds as written. -/
def interpolar_idw (puntos : List (ℚ × ℚ)) (queries : List (ℚ × ℚ))
    (valores : List ℚ) : Option (List ℚ) :=
  let k := min 10 puntos.length
  if k ≤ 1 then none
  else
    some (queries.map (fun q =>
      let idxs := k_nearest puntos q k
      let sqd := idxs.map (fun i => sq_dist (puntos.getD i (0, 0)) q)
      let vals := idxs.map (fun i => valores.getD i 0)
      (List.zipWith (· * ·) (idw_weights_sq sqd) vals).sum))

/-- Masking step of `generar_raster_amenaza` (src/mapa_amenaza_pijao.py lines
335-338): `zi_continuo[~mask] = np.nan` sets every cell outside the buffered
analysis area to NaN, leaving inside cells at their interpolated value. -/
def aplicar_mascara (zi : List ℚ) (mask : List Bool) : List FSValue :=
  List.zipWith (fun v ins => if ins then some v else none) zi mask

/-- Classification step of `generar_raster_amenaza` (src/mapa_amenaza_pijao.py
lines 345-352): the classified grid starts as zeros and
`reclasificar_fs_a_haz` is applied exactly to the non-NaN cells. -/
def clasificar_raster (zim : List FSValue) : List ℤ :=
  zim.map (fun v =>
    match v with
    | none => 0
    | some x => reclasificar_fs_a_haz UMBRALES_FS x)

/-- Composition of the interpolation, masking and reclassification stages of
`generar_raster_amenaza` (src/mapa_amenaza_pijao.py lines 281-355) over the
flattened cell grid, with the inside-area mask of the cells given as input
(the geometric `geometry_mask` computation is library code outside the
repository). An error raised inside `interpolar_idw` propagates: no raster is
produced. -/
def generar_raster_amenaza (puntos queries : List (ℚ × ℚ)) (valores : List ℚ)
    (mask : List Bool) : Option (List ℤ) :=
  (interpolar_idw puntos queries valores).map
    (fun zi => clasificar_raster (aplicar_mascara zi mask))

/-- Attribute record of one survey point as read by `crear_poligonos_voronoi`:
`haz_num`, optional `FS_min`, and `ID`. -/
structure PuntoRec where
  haz_num : ℤ
  fs_min : Option ℚ
  id : ℕ
  deriving DecidableEq

/-- The parts of a `scipy.spatial.Voronoi` result read by
`crear_poligonos_voronoi`: for each input point the index of its region, and
for each region its list of vertex indices, where `-1` marks the vertex at
infinity of an open region. -/
structure VoronoiDiagram where
  point_region : List ℕ
  regions : List (List ℤ)
  deriving DecidableEq

/-- One output record of `crear_poligonos_voronoi` (src/mapa_amenaza_pijao.py
lines 249-255): clipped geometry plus the attributes of the generating
point. -/
structure CeldaVoronoi (α : Type) where
  geometry : α
  haz_num : ℤ
  fs_min : Option ℚ
  punto_id : ℕ
  deriving DecidableEq

/-- Embedding of the emission loop of `crear_poligonos_voronoi`
(src/mapa_amenaza_pijao.py lines 239-257): only the first `n_real =
len(puntos)` generating points are visited (the four phantom bounding-box
points appended at indices `>= n_real` are never emitted), a region that is
empty or contains the infinite vertex `-1` is skipped, the cell polygon is
intersected with the buffered corridor (modelled by `clip`, which returns
`none` exactly when `poly.intersection(corredor_buffer).is_empty`), and a
surviving record copies `haz_num`, `FS_min` and `ID` from its generating
point. -/
def crear_poligonos_voronoi {α : Type} (vor : VoronoiDiagram)
    (puntos : List PuntoRec) (clip : List ℤ → Option α) :
    List (CeldaVoronoi α) :=
  (List.range puntos.length).filterMap (fun point_idx =>
    let region := vor.regions.getD (vor.point_region.getD point_idx 0) []
    if region = [] ∨ (-1 : ℤ) ∈ region then none
    else
      match clip region with
      | none => none
      | some g =>
        let p := puntos.getD point_idx ⟨0, none, 0⟩
        some ⟨g, p.haz_num, p.fs_min, p.id⟩)

/-- Model of the pandas filter `puntos_gdf['FS_min'] < 1.0` on one value
(src/mapa_amenaza_pijao.py line 177, src/pages/1_Estadisticas.py lines 80 and
172): a NaN FS_min compares as False, so it is never critical. -/
def es_critico (fs : FSValue) : Bool :=
  match fs with
  | none => false
  | some x => decide (x < 1)

/-- Number of critical points, `len(puntos_gdf[puntos_gdf['FS_min'] < 1.0])`,
over the list of FS_min values of the point collection. -/
def puntos_criticos_count (fs_list : List FSValue) : ℕ :=
  (fs_list.filter es_critico).length

theorem digitizeLeft_default (x : ℚ) :
    digitizeLeft x UMBRALES_AMENAZA.bins =
      (if (0 : ℚ) ≤ x then 1 else 0) + ((if (1 : ℚ) ≤ x then 1 else 0) +
        ((if (6 : ℚ)/5 ≤ x then 1 else 0) + ((if (3 : ℚ)/2 ≤ x then 1 else 0) +
          (if (2 : ℚ) ≤ x then 1 else 0)))) := by
  simp only [digitizeLeft, UMBRALES_AMENAZA, List.countP_cons, List.countP_nil,
    edgeLe]
  by_cases h0 : (0 : ℚ) ≤ x <;> by_cases h1 : (1 : ℚ) ≤ x <;>
    by_cases h2 : (6 : ℚ)/5 ≤ x <;> by_cases h3 : (3 : ℚ)/2 ≤ x <;>
    by_cases h4 : (2 : ℚ) ≤ x <;>
    simp [h0, h1, h2, h3, h4]

/-- Closed form of the default-scheme scalar classifier. -/
theorem clasificar_fs_default_closed (x : ℚ) :
    clasificar_fs UMBRALES_AMENAZA (some x) =
      if x < 1 then 5 else if x < 6/5 then 4 else if x < 3/2 then 3
      else if x < 2 then 2 else 1 := by
  have hlen : (UMBRALES_AMENAZA.clases.length : ℤ) = 5 := by rfl
  simp only [clasificar_fs, digitizeLeft_default, hlen]
  rcases lt_or_le x 1 with h1 | h1
  · rcases lt_or_le x 0 with h0 | h0
    · simp [not_le.mpr h0, not_le.mpr h1, not_le.mpr (by linarith : x < 6/5),
        not_le.mpr (by linarith : x < 3/2), not_le.mpr (by linarith : x < 2), h1]
      rfl
    · simp [h0, not_le.mpr h1, not_le.mpr (by linarith : x < 6/5),
        not_le.mpr (by linarith : x < 3/2), not_le.mpr (by linarith : x < 2), h1]
      rfl
  · rcases lt_or_le x (6/5) with h2 | h2
    · simp [(by linarith : (0:ℚ) ≤ x), h1, not_le.mpr h2,
        not_le.mpr (by linarith : x < 3/2), not_le.mpr (by linarith : x < 2),
        not_lt.mpr h1, h2]
      rfl
    · rcases lt_or_le x (3/2) with h3 | h3
      · simp [(by linarith : (0:ℚ) ≤ x), h1, h2, not_le.mpr h3,
          not_le.mpr (by linarith : x < 2), not_lt.mpr h1, not_lt.mpr h2, h3]
        rfl
      · rcases lt_or_le x 2 with h4 | h4
        · simp [(by linarith : (0:ℚ) ≤ x), h1, h2, h3, not_le.mpr h4,
            not_lt.mpr h1, not_lt.mpr h2, not_lt.mpr h3, h4]
          rfl
        · simp [(by linarith : (0:ℚ) ≤ x), h1, h2, h3, h4,
            not_lt.mpr h1, not_lt.mpr h2, not_lt.mpr h3, not_lt.mpr h4]
          rfl

theorem digitizeRight_default (x : ℚ) :
    digitizeRight x UMBRALES_FS.bins =
      (if (0 : ℚ) < x then 1 else 0) + ((if (1 : ℚ) < x then 1 else 0) +
        ((if (6 : ℚ)/5 < x then 1 else 0) + ((if (3 : ℚ)/2 < x then 1 else 0) +
          (if (2 : ℚ) < x then 1 else 0)))) := by
  simp only [digitizeRight, UMBRALES_FS, List.countP_cons, List.countP_nil,
    edgeLt]
  by_cases h0 : (0 : ℚ) < x <;> by_cases h1 : (1 : ℚ) < x <;>
    by_cases h2 : (6 : ℚ)/5 < x <;> by_cases h3 : (3 : ℚ)/2 < x <;>
    by_cases h4 : (2 : ℚ) < x <;>
    simp [h0, h1, h2, h3, h4]

/-- Closed form of the raster reclassification under the default thresholds:
`right=True` digitizing makes each bin right-inclusive, and any value `<= 0`
keeps the initial 0 of the output array. -/
theorem reclasificar_default_closed (x : ℚ) :
    reclasificar_fs_a_haz UMBRALES_FS x =
      if x ≤ 0 then 0 else if x ≤ 1 then 5 else if x ≤ 6/5 then 4
      else if x ≤ 3/2 then 3 else if x ≤ 2 then 2 else 1 := by
  have hlen : UMBRALES_FS.clases.length = 5 := by rfl
  simp only [reclasificar_fs_a_haz, digitizeRight_default, hlen]
  rcases le_or_lt x 0 with h0 | h0
  · simp [not_lt.mpr h0, not_lt.mpr (by linarith : x ≤ 1),
      not_lt.mpr (by linarith : x ≤ 6/5), not_lt.mpr (by linarith : x ≤ 3/2),
      not_lt.mpr (by linarith : x ≤ 2), h0]
  · rcases le_or_lt x 1 with h1 | h1
    · simp [h0, not_lt.mpr h1, not_lt.mpr (by linarith : x ≤ 6/5),
        not_lt.mpr (by linarith : x ≤ 3/2), not_lt.mpr (by linarith : x ≤ 2),
        not_le.mpr h0, h1]
      rfl
    · rcases le_or_lt x (6/5) with h2 | h2
      · simp [h0, h1, not_lt.mpr h2, not_lt.mpr (by linarith : x ≤ 3/2),
          not_lt.mpr (by linarith : x ≤ 2), not_le.mpr h0, not_le.mpr h1, h2]
        rfl
      · rcases le_or_lt x (3/2) with h3 | h3
        · simp [h0, h1, h2, not_lt.mpr h3, not_lt.mpr (by linarith : x ≤ 2),
            not_le.mpr h0, not_le.mpr h1, not_le.mpr h2, h3]
          rfl
        · rcases le_or_lt x 2 with h4 | h4
          · simp [h0, h1, h2, h3, not_lt.mpr h4, not_le.mpr h0,
              not_le.mpr h1, not_le.mpr h2, not_le.mpr h3, h4]
            rfl
          · simp [h0, h1, h2, h3, h4, not_le.mpr h0, not_le.mpr h1,
              not_le.mpr h2, not_le.mpr h3, not_le.mpr h4]
            rfl

theorem list_sum_map_div (l : List ℚ) (s : ℚ) :
    (l.map (fun w => w / s)).sum = l.sum / s := by
  induction l with
  | nil => simp
  | cons a t ih => simp [ih, add_div]

theorem getD_mem_of_lt {α : Type} :
    ∀ (l : List α) (n : ℕ) (d : α), n < l.length → l.getD n d ∈ l := by
  intro l
  induction l with
  | nil => intro n d h; simp at h
  | cons a t ih =>
    intro n d h
    cases n with
    | zero => simp
    | succ m =>
      simp only [List.getD_cons_succ]
      exact List.mem_cons_of_mem a (ih m d (by simpa using h))

theorem distancia_floor_pos : (0 : ℚ) < distancia_floor := by
  norm_num [distancia_floor]

theorem sq_floor_pos : (0 : ℚ) < sq_floor := by
  norm_num [sq_floor]

theorem idw_raw_weight_pos (power : ℕ) (d : ℚ) :
    0 < 1 / (max d distancia_floor) ^ power := by
  have h : (0 : ℚ) < max d distancia_floor :=
    lt_of_lt_of_le distancia_floor_pos (le_max_right _ _)
  positivity

theorem idw_raw_weights_sum_pos (power : ℕ) (dists : List ℚ)
    (h : dists ≠ []) : 0 < (idw_raw_weights power dists).sum := by
  refine List.sum_pos _ ?_ (by simpa [idw_raw_weights] using h)
  intro w hw
  simp only [idw_raw_weights, List.mem_map] at hw
  obtain ⟨d, _, rfl⟩ := hw
  exact idw_raw_weight_pos power d

theorem idw_weights_sum_one (power : ℕ) (dists : List ℚ) (h : dists ≠ []) :
    (idw_weights power dists).sum = 1 := by
  unfold idw_weights
  rw [list_sum_map_div]
  exact div_self (ne_of_gt (idw_raw_weights_sum_pos power dists h))

theorem idw_weights_pos (power : ℕ) (dists : List ℚ) (h : dists ≠ []) :
    ∀ w ∈ idw_weights power dists, 0 < w := by
  intro w hw
  simp only [idw_weights, List.mem_map] at hw
  obtain ⟨v, hv, rfl⟩ := hw
  simp only [idw_raw_weights, List.mem_map] at hv
  obtain ⟨d, _, rfl⟩ := hv
  exact div_pos (idw_raw_weight_pos power d)
    (idw_raw_weights_sum_pos power dists h)

theorem idw_sq_raw_weight_pos (s : ℚ) : 0 < 1 / max s sq_floor := by
  have h : (0 : ℚ) < max s sq_floor :=
    lt_of_lt_of_le sq_floor_pos (le_max_right _ _)
  positivity

theorem idw_sq_raw_sum_pos (sqd : List ℚ) (h : sqd ≠ []) :
    0 < (sqd.map (fun s => 1 / max s sq_floor)).sum := by
  refine List.sum_pos _ ?_ (by simpa using h)
  intro w hw
  simp only [List.mem_map] at hw
  obtain ⟨s, _, rfl⟩ := hw
  exact idw_sq_raw_weight_pos s

theorem idw_weights_sq_sum_one (sqd : List ℚ) (h : sqd ≠ []) :
    (idw_weights_sq sqd).sum = 1 := by
  unfold idw_weights_sq
  rw [list_sum_map_div]
  exact div_self (ne_of_gt (idw_sq_raw_sum_pos sqd h))

theorem idw_weights_sq_nonneg (sqd : List ℚ) (h : sqd ≠ []) :
    ∀ w ∈ idw_weights_sq sqd, 0 ≤ w := by
  intro w hw
  simp only [idw_weights_sq, List.mem_map] at hw
  obtain ⟨v, hv, rfl⟩ := hw
  obtain ⟨s, _, rfl⟩ := hv
  exact le_of_lt (div_pos (idw_sq_raw_weight_pos s) (idw_sq_raw_sum_pos sqd h))

theorem idw_weights_sq_length (sqd : List ℚ) :
    (idw_weights_sq sqd).length = sqd.length := by
  simp [idw_weights_sq]

theorem sum_zipWith_mul_le (hi : ℚ) :
    ∀ (w v : List ℚ), w.length = v.length → (∀ x ∈ w, 0 ≤ x) →
      (∀ x ∈ v, x ≤ hi) → (List.zipWith (· * ·) w v).sum ≤ hi * w.sum := by
  intro w
  induction w with
  | nil => intro v _ _ _; simp
  | cons a t ih =>
    intro v hlen hw hv
    cases v with
    | nil => simp at hlen
    | cons b u =>
      simp only [List.zipWith_cons_cons, List.sum_cons, mul_add]
      have h1 : a * b ≤ hi * a := by
        have := mul_le_mul_of_nonneg_left (hv b (by simp))
          (hw a (by simp))
        linarith [mul_comm a hi]
      have h2 : (List.zipWith (· * ·) t u).sum ≤ hi * t.sum :=
        ih u (by simpa using hlen) (fun x hx => hw x (by simp [hx]))
          (fun x hx => hv x (by simp [hx]))
      linarith

theorem le_sum_zipWith_mul (lo : ℚ) :
    ∀ (w v : List ℚ), w.length = v.length → (∀ x ∈ w, 0 ≤ x) →
      (∀ x ∈ v, lo ≤ x) → lo * w.sum ≤ (List.zipWith (· * ·) w v).sum := by
  intro w
  induction w with
  | nil => intro v _ _ _; simp
  | cons a t ih =>
    intro v hlen hw hv
    cases v with
    | nil => simp at hlen
    | cons b u =>
      simp only [List.zipWith_cons_cons, List.sum_cons, mul_add]
      have h1 : lo * a ≤ a * b := by
        have := mul_le_mul_of_nonneg_left (hv b (by simp))
          (hw a (by simp))
        linarith [mul_comm a lo]
      have h2 : lo * t.sum ≤ (List.zipWith (· * ·) t u).sum :=
        ih u (by simpa using hlen) (fun x hx => hw x (by simp [hx]))
          (fun x hx => hv x (by simp [hx]))
      linarith

theorem mem_insert_by_dist (x y : ℚ × ℕ) :
    ∀ l : List (ℚ × ℕ), (y ∈ insert_by_dist x l ↔ y = x ∨ y ∈ l) := by
  intro l
  induction l with
  | nil => simp [insert_by_dist]
  | cons a t ih =>
    simp only [insert_by_dist]
    split
    · simp [List.mem_cons]
    · simp only [List.mem_cons, ih]
      tauto

theorem mem_sort_by_dist (y : ℚ × ℕ) :
    ∀ l : List (ℚ × ℕ), (y ∈ sort_by_dist l ↔ y ∈ l) := by
  intro l
  induction l with
  | nil => simp [sort_by_dist]
  | cons a t ih =>
    show y ∈ insert_by_dist a (sort_by_dist t) ↔ _
    rw [mem_insert_by_dist, ih]
    simp [List.mem_cons, eq_comm]

theorem length_insert_by_dist (x : ℚ × ℕ) :
    ∀ l : List (ℚ × ℕ), (insert_by_dist x l).length = l.length + 1 := by
  intro l
  induction l with
  | nil => simp [insert_by_dist]
  | cons a t ih =>
    simp only [insert_by_dist]
    split
    · simp
    · simp [ih]

theorem length_sort_by_dist :
    ∀ l : List (ℚ × ℕ), (sort_by_dist l).length = l.length := by
  intro l
  induction l with
  | nil => rfl
  | cons a t ih =>
    show (insert_by_dist a (sort_by_dist t)).length = _
    rw [length_insert_by_dist, ih]
    rfl

theorem length_k_nearest (pts : List (ℚ × ℚ)) (q : ℚ × ℚ) (k : ℕ) :
    (k_nearest pts q k).length = min k pts.length := by
  simp [k_nearest, length_sort_by_dist]

theorem mem_k_nearest_lt (pts : List (ℚ × ℚ)) (q : ℚ × ℚ) (k i : ℕ)
    (h : i ∈ k_nearest pts q k) : i < pts.length := by
  simp only [k_nearest, List.mem_map] at h
  obtain ⟨p, hp, rfl⟩ := h
  have h2 : p ∈ sort_by_dist ((List.range pts.length).map
      (fun i => (sq_dist (pts.getD i (0, 0)) q, i))) :=
    List.mem_of_mem_take hp
  rw [mem_sort_by_dist] at h2
  simp only [List.mem_map] at h2
  obtain ⟨j, hj, rfl⟩ := h2
  simpa using List.mem_range.mp hj

theorem interpolar_idw_eq_some (puntos queries : List (ℚ × ℚ))
    (valores : List ℚ) (h2 : 2 ≤ puntos.length) :
    interpolar_idw puntos queries valores
      = some (queries.map (fun q =>
          let idxs := k_nearest puntos q (min 10 puntos.length)
          let sqd := idxs.map (fun i => sq_dist (puntos.getD i (0, 0)) q)
          let vals := idxs.map (fun i => valores.getD i 0)
          (List.zipWith (· * ·) (idw_weights_sq sqd) vals).sum)) := by
  simp only [interpolar_idw]
  rw [if_neg (by omega : ¬ min 10 puntos.length ≤ 1)]

theorem interpolar_idw_some_length (puntos queries : List (ℚ × ℚ))
    (valores : List ℚ) (out : List ℚ)
    (h : interpolar_idw puntos queries valores = some out) :
    out.length = queries.length := by
  simp only [interpolar_idw] at h
  by_cases hk : min 10 puntos.length ≤ 1
  · rw [if_pos hk] at h
    cases h
  · rw [if_neg hk] at h
    have := Option.some.inj h
    rw [← this]
    simp

theorem reclasificar_ne_zero_iff (x : ℚ) :
    reclasificar_fs_a_haz UMBRALES_FS x ≠ 0 ↔ 0 < x := by
  rw [reclasificar_default_closed]
  rcases le_or_lt x 0 with h | h
  · simp [h, not_lt.mpr h]
  · rw [if_neg (not_le.mpr h)]
    split_ifs <;> simp [h]

theorem clasificar_raster_getD :
    ∀ (zi : List ℚ) (mask : List Bool) (i : ℕ), zi.length = mask.length →
      i < zi.length →
      ((clasificar_raster (aplicar_mascara zi mask)).getD i 0 ≠ 0 ↔
        mask.getD i false = true ∧ 0 < zi.getD i 0) := by
  intro zi
  induction zi with
  | nil => intro mask i _ hi; simp at hi
  | cons v t ih =>
    intro mask i hlen hi
    cases mask with
    | nil => simp at hlen
    | cons b m =>
      cases i with
      | zero =>
        simp only [aplicar_mascara, List.zipWith_cons_cons, clasificar_raster,
          List.map_cons, List.getD_cons_zero]
        cases b
        · simp
        · simpa using reclasificar_ne_zero_iff v
      | succ j =>
        simp only [aplicar_mascara, List.zipWith_cons_cons, clasificar_raster,
          List.map_cons, List.getD_cons_succ]
        exact ih m j (by simpa using hlen) (by simpa using hi)

theorem clasificar_raster_nan :
    ∀ (zim : List FSValue) (j : ℕ), zim.getD j (some 1) = none →
      (clasificar_raster zim).getD j 0 = 0 := by
  intro zim
  induction zim with
  | nil => intro j h; simp at h
  | cons a t ih =>
    intro j h
    cases j with
    | zero =>
      simp only [List.getD_cons_zero] at h
      simp [clasificar_raster, h]
    | succ m =>
      simp only [List.getD_cons_succ] at h
      simp only [clasificar_raster, List.map_cons, List.getD_cons_succ]
      exact ih m h

/-- C1 counterexample: the claim fails at the finite value `x = 0`. The array
path's `valid_mask` treats 0 as a nodata marker and leaves the output cell 0,
while the scalar path classifies `0.0` into the first bin, class 5 — so
`clasificar_fs_array([0.0]) = [0]` but `[clasificar_fs(0.0)] = [5]`. -/
theorem claim_C1_counterexample :
    clasificar_fs_array UMBRALES_AMENAZA [some 0] = [0] ∧
    clasificar_fs UMBRALES_AMENAZA (some 0) = 5 := by
  constructor
  · simp [clasificar_fs_array, clasificar_fs_elem]
  · rw [clasificar_fs_default_closed]
    norm_num

/-- C1 amended: for every scheme whose class list is non-empty with classes
representable in the array path's uint8 output, and every finite x other than
the nodata marker 0, classifying the one-element array agrees with the scalar
classification: `clasificar_fs_array([x]) = [clasificar_fs(x)]`. -/
theorem claim_C1_amended (s : Scheme) (hne : s.clases ≠ [])
    (hcl : ∀ c ∈ s.clases, 0 ≤ c ∧ c < 256) (x : ℚ) (hx : x ≠ 0) :
    clasificar_fs_array s [some x] = [clasificar_fs s (some x)] := by
  have hlen : 0 < s.clases.length := List.length_pos.mpr hne
  simp only [clasificar_fs_array, List.map_cons, List.map_nil]
  congr 1
  show clasificar_fs_elem s (some x) = clasificar_fs s (some x)
  simp only [clasificar_fs_elem, clasificar_fs, if_neg hx]
  have hidx : (min (max ((digitizeLeft x s.bins : ℤ) - 1) 0)
        ((s.clases.length : ℤ) - 1)).toNat
      = (max 0 (min ((digitizeLeft x s.bins : ℤ) - 1)
        ((s.clases.length : ℤ) - 1))).toNat := by omega
  rw [hidx]
  have hmlt : (max 0 (min ((digitizeLeft x s.bins : ℤ) - 1)
      ((s.clases.length : ℤ) - 1))).toNat < s.clases.length := by omega
  have hc := hcl _ (getD_mem_of_lt s.clases _ 0 hmlt)
  exact Int.emod_eq_of_lt hc.1 hc.2

/-- C1 witness: the amended equality holds at the default scheme and x = 3. -/
theorem claim_C1_witness :
    clasificar_fs_array UMBRALES_AMENAZA [some 3] =
      [clasificar_fs UMBRALES_AMENAZA (some 3)] :=
  claim_C1_amended UMBRALES_AMENAZA (by decide) (by decide) 3 (by norm_num)

/-- C2 counterexample: the three classification paths do not apply one
threshold scheme identically. At FS = 1.0 the raster reclassification
(`right=True` digitize) assigns class 5 while the Classifier (`right=False`
digitize) assigns class 4; at FS = 1.3 the point-preparation fallback
(its own 1.50/1.30/1.10/1.00 cascade) assigns class 2 while the Classifier
assigns class 3. -/
theorem claim_C2_counterexample :
    reclasificar_fs_a_haz UMBRALES_FS 1 = 5 ∧
    clasificar_fs UMBRALES_AMENAZA (some 1) = 4 ∧
    fs_to_h (some (13/10)) = some 2 ∧
    clasificar_fs UMBRALES_AMENAZA (some (13/10)) = 3 := by
  refine ⟨?_, ?_, ?_, ?_⟩
  · rw [reclasificar_default_closed]; norm_num
  · rw [clasificar_fs_default_closed]; norm_num
  · simp only [fs_to_h]; norm_num
  · rw [clasificar_fs_default_closed]; norm_num

/-- C2 amended: the raster reclassification and the Classifier share the same
bins and classes but differ in boundary convention, so they agree exactly at
every positive FS that is not a bin edge (1.0, 1.2, 1.5, 2.0); the
point-preparation fallback evaluates its own distinct thresholds
(1.50/1.30/1.10/1.00) and agrees with the Classifier only below 1.1, on
[1.2, 1.3), and from 2.0 upward. -/
theorem claim_C2_amended :
    (∀ x : ℚ, 0 < x → x ≠ 1 → x ≠ 6/5 → x ≠ 3/2 → x ≠ 2 →
      reclasificar_fs_a_haz UMBRALES_FS x =
        clasificar_fs UMBRALES_AMENAZA (some x)) ∧
    (∀ x : ℚ, (x < 11/10 ∨ (6/5 ≤ x ∧ x < 13/10) ∨ 2 ≤ x) →
      fs_to_h (some x) = some (clasificar_fs UMBRALES_AMENAZA (some x))) := by
  constructor
  · intro x hx h1 h2 h3 h4
    rw [reclasificar_default_closed, clasificar_fs_default_closed]
    rcases h1.lt_or_lt with l1 | l1
    · rw [if_neg (not_le.mpr hx), if_pos l1.le, if_pos l1]
    · rcases h2.lt_or_lt with l2 | l2
      · rw [if_neg (not_le.mpr hx), if_neg (not_le.mpr l1), if_pos l2.le,
          if_neg (not_lt.mpr l1.le), if_pos l2]
      · rcases h3.lt_or_lt with l3 | l3
        · rw [if_neg (not_le.mpr hx), if_neg (not_le.mpr l1),
            if_neg (not_le.mpr l2), if_pos l3.le, if_neg (not_lt.mpr l1.le),
            if_neg (not_lt.mpr l2.le), if_pos l3]
        · rcases h4.lt_or_lt with l4 | l4
          · rw [if_neg (not_le.mpr hx), if_neg (not_le.mpr l1),
              if_neg (not_le.mpr l2), if_neg (not_le.mpr l3), if_pos l4.le,
              if_neg (not_lt.mpr l1.le), if_neg (not_lt.mpr l2.le),
              if_neg (not_lt.mpr l3.le), if_pos l4]
          · rw [if_neg (not_le.mpr hx), if_neg (not_le.mpr l1),
              if_neg (not_le.mpr l2), if_neg (not_le.mpr l3),
              if_neg (not_le.mpr l4), if_neg (not_lt.mpr l1.le),
              if_neg (not_lt.mpr l2.le), if_neg (not_lt.mpr l3.le),
              if_neg (not_lt.mpr l4.le)]
  · intro x hx
    simp only [fs_to_h]
    rw [clasificar_fs_default_closed]
    rcases hx with h | ⟨ha, hb⟩ | h
    · rcases lt_or_le x 1 with h1 | h1
      · rw [if_neg (not_le.mpr (by linarith : x < 3/2)),
          if_neg (not_le.mpr (by linarith : x < 13/10)),
          if_neg (not_le.mpr (by linarith : x < 11/10)),
          if_neg (not_le.mpr h1), if_pos h1]
      · rw [if_neg (not_le.mpr (by linarith : x < 3/2)),
          if_neg (not_le.mpr (by linarith : x < 13/10)),
          if_neg (not_le.mpr (by linarith : x < 11/10)),
          if_pos h1, if_neg (not_lt.mpr h1),
          if_pos (by linarith : x < 6/5)]
    · rw [if_neg (not_le.mpr (by linarith : x < 3/2)),
        if_neg (not_le.mpr hb), if_pos (by linarith : (11:ℚ)/10 ≤ x),
        if_neg (not_lt.mpr (by linarith : (1:ℚ) ≤ x)),
        if_neg (not_lt.mpr ha), if_pos (by linarith : x < 3/2)]
    · rw [if_pos (by linarith : (3:ℚ)/2 ≤ x),
        if_neg (not_lt.mpr (by linarith : (1:ℚ) ≤ x)),
        if_neg (not_lt.mpr (by linarith : (6:ℚ)/5 ≤ x)),
        if_neg (not_lt.mpr (by linarith : (3:ℚ)/2 ≤ x)),
        if_neg (not_lt.mpr h)]

/-- C2 witness: the amended agreement at the concrete inputs FS = 3 (raster
path versus Classifier) and FS = 1/2 (fallback versus Classifier). -/
theorem claim_C2_witness :
    reclasificar_fs_a_haz UMBRALES_FS 3 =
      clasificar_fs UMBRALES_AMENAZA (some 3) ∧
    fs_to_h (some (1/2)) =
      some (clasificar_fs UMBRALES_AMENAZA (some (1/2))) :=
  ⟨claim_C2_amended.1 3 (by norm_num) (by norm_num) (by norm_num)
      (by norm_num) (by norm_num),
    claim_C2_amended.2 (1/2) (Or.inl (by norm_num))⟩

/-- C3: under the default scheme the scalar classifier is antitone in FS
(for FS1 < FS2 the class of FS2 is at most the class of FS1), and the bin
boundary at FS = 1.0 separates two classes: every 1.0 - eps with eps > 0 is
class 5 while 1.0 itself is class 4 (left-closed bin convention). -/
theorem claim_C3 :
    (∀ x y : ℚ, x < y →
      clasificar_fs UMBRALES_AMENAZA (some y) ≤
        clasificar_fs UMBRALES_AMENAZA (some x)) ∧
    (∀ ε : ℚ, 0 < ε →
      clasificar_fs UMBRALES_AMENAZA (some (1 - ε)) = 5 ∧
      clasificar_fs UMBRALES_AMENAZA (some 1) = 4) := by
  constructor
  · intro x y hxy
    rw [clasificar_fs_default_closed, clasificar_fs_default_closed]
    split_ifs <;> linarith
  · intro ε hε
    constructor
    · rw [clasificar_fs_default_closed, if_pos (by linarith : (1:ℚ) - ε < 1)]
    · rw [clasificar_fs_default_closed]
      norm_num

/-- C3 witness: antitonicity at the pair (1/2, 3/4) and the boundary claim at
eps = 1/2. -/
theorem claim_C3_witness :
    clasificar_fs UMBRALES_AMENAZA (some (3/4)) ≤
      clasificar_fs UMBRALES_AMENAZA (some (1/2)) ∧
    (clasificar_fs UMBRALES_AMENAZA (some (1 - 1/2)) = 5 ∧
      clasificar_fs UMBRALES_AMENAZA (some 1) = 4) :=
  ⟨claim_C3.1 (1/2) (3/4) (by norm_num), claim_C3.2 (1/2) (by norm_num)⟩

/-- C4 counterexample: nonzero-iff-valid-and-inside fails. With two
coincident samples of value 0 at the query location (so k = 2 and the source
runs without error), the interpolated continuous value of the inside cell is
0 — valid (non-NaN) and inside the mask — yet the `right=True` digitize of
`reclasificar_fs_a_haz` leaves any value at or below the lowest bin edge 0 at
index 0, so the classified cell is 0. -/
theorem claim_C4_counterexample :
    generar_raster_amenaza [((0:ℚ), (0:ℚ)), ((0:ℚ), (0:ℚ))]
      [((0:ℚ), (0:ℚ))] [(0:ℚ), (0:ℚ)] [true] = some [0] ∧
    interpolar_idw [((0:ℚ), (0:ℚ)), ((0:ℚ), (0:ℚ))] [((0:ℚ), (0:ℚ))]
      [(0:ℚ), (0:ℚ)] = some [0] ∧
    aplicar_mascara [(0:ℚ)] [true] = [some 0] := by
  have hidw : interpolar_idw [((0:ℚ), (0:ℚ)), ((0:ℚ), (0:ℚ))]
      [((0:ℚ), (0:ℚ))] [(0:ℚ), (0:ℚ)] = some [0] := by
    norm_num [interpolar_idw, k_nearest, sort_by_dist, insert_by_dist,
      sq_dist, idw_weights_sq, List.range_succ]
  refine ⟨?_, hidw, ?_⟩
  · rw [generar_raster_amenaza, hidw]
    norm_num [aplicar_mascara, clasificar_raster, reclasificar_default_closed]
  · norm_num [aplicar_mascara]

/-- C4 amended: whenever the interpolation stage succeeds (it errors on
fewer than two samples), the produced classified grid is the
mask-then-reclassify image of the continuous grid, and a cell of it is
nonzero iff the cell lies inside the buffered analysis area, its continuous
value is valid, and that value is strictly positive (values at or below 0
fall outside every bin of the `right=True` digitize and keep the initial
class 0); every cell whose masked continuous value is NaN is class 0. -/
theorem claim_C4_amended :
    (∀ (puntos queries : List (ℚ × ℚ)) (valores : List ℚ)
      (mask : List Bool) (zi : List ℚ) (i : ℕ),
      interpolar_idw puntos queries valores = some zi →
      queries.length = mask.length → i < queries.length →
      generar_raster_amenaza puntos queries valores mask
        = some (clasificar_raster (aplicar_mascara zi mask)) ∧
      ((clasificar_raster (aplicar_mascara zi mask)).getD i 0 ≠ 0 ↔
        mask.getD i false = true ∧ 0 < zi.getD i 0)) ∧
    (∀ (zim : List FSValue) (j : ℕ), zim.getD j (some 1) = none →
      (clasificar_raster zim).getD j 0 = 0) := by
  constructor
  · intro puntos queries valores mask zi i hzi hlen hi
    have hz : zi.length = queries.length :=
      interpolar_idw_some_length puntos queries valores zi hzi
    constructor
    · rw [generar_raster_amenaza, hzi]
      rfl
    · exact clasificar_raster_getD zi mask i (by rw [hz, hlen])
        (by rw [hz]; exact hi)
  · exact clasificar_raster_nan

/-- C4 witness: the amended equivalence at a concrete one-cell grid built
from two coincident samples of value 2 (inside, valid, positive), and the
NaN clause at a one-cell all-NaN grid. -/
theorem claim_C4_witness :
    (generar_raster_amenaza [((0:ℚ), (0:ℚ)), ((0:ℚ), (0:ℚ))]
        [((0:ℚ), (0:ℚ))] [(2:ℚ), (2:ℚ)] [true]
      = some (clasificar_raster (aplicar_mascara [(2:ℚ)] [true])) ∧
      ((clasificar_raster (aplicar_mascara [(2:ℚ)] [true])).getD 0 0 ≠ 0 ↔
        ([true].getD 0 false = true ∧ 0 < ([(2:ℚ)] : List ℚ).getD 0 0))) ∧
    (clasificar_raster [none]).getD 0 0 = 0 := by
  have hidw : interpolar_idw [((0:ℚ), (0:ℚ)), ((0:ℚ), (0:ℚ))]
      [((0:ℚ), (0:ℚ))] [(2:ℚ), (2:ℚ)] = some [2] := by
    norm_num [interpolar_idw, k_nearest, sort_by_dist, insert_by_dist,
      sq_dist, idw_weights_sq, List.range_succ, max_def, sq_floor]
  exact ⟨claim_C4_amended.1 [((0:ℚ), (0:ℚ)), ((0:ℚ), (0:ℚ))]
      [((0:ℚ), (0:ℚ))] [(2:ℚ), (2:ℚ)] [true] [(2:ℚ)] 0 hidw rfl
      (by norm_num),
    claim_C4_amended.2 [none] 0 rfl⟩

/-- C5: in the IDW weighting stage, the epsilon floor makes every raw weight
`1 / max(distance, 1e-10)^power` strictly positive (no division by zero even
at distance 0, a query coinciding with a sample), every normalised weight is
strictly positive, and for every query row the normalised weights sum to
exactly 1, so the interpolated value `idw_row` is the weighted average of the
neighbour sample values under weights summing to 1. -/
theorem claim_C5 (power : ℕ) (dists : List ℚ) (hne : dists ≠ []) :
    (∀ d ∈ dists, 0 < 1 / (max d distancia_floor) ^ power) ∧
    (∀ w ∈ idw_weights power dists, 0 < w) ∧
    (idw_weights power dists).sum = 1 ∧
    (∀ vals : List ℚ, idw_row power dists vals =
      (List.zipWith (· * ·) (idw_weights power dists) vals).sum) :=
  ⟨fun d _ => idw_raw_weight_pos power d,
    idw_weights_pos power dists hne,
    idw_weights_sum_one power dists hne,
    fun _ => rfl⟩

/-- C5 witness: the properties at power 2 and the one-row distance array [0]
(a query exactly on a sample). -/
theorem claim_C5_witness :
    0 < 1 / (max (0:ℚ) distancia_floor) ^ 2 ∧
    (idw_weights 2 [(0:ℚ)]).sum = 1 :=
  ⟨(claim_C5 2 [(0:ℚ)] (by simp)).1 0 (by simp),
    (claim_C5 2 [(0:ℚ)] (by simp)).2.2.1⟩

/-- C6: code bug — the source does not degrade gracefully down to a single
sample. With `len(puntos) = 1` the KD-tree query runs at `k = min(10, 1) =
1`, for which `cKDTree.query` returns distance and index arrays squeezed to
one dimension, so `weights.sum(axis=1)` raises `numpy.AxisError` and no
result is returned. The embedding evaluates this error path to `none` at the
single-sample input. -/
theorem claim_C6 :
    min 10 ([((0:ℚ), (0:ℚ))] : List (ℚ × ℚ)).length = 1 ∧
    interpolar_idw [((0:ℚ), (0:ℚ))] [((1:ℚ), (1:ℚ))] [(7:ℚ)] = none := by
  constructor
  · rfl
  · norm_num [interpolar_idw]

theorem idw_sq_combo_bounds (sqd vals : List ℚ) (lo hi : ℚ) (hne : sqd ≠ [])
    (hlen : sqd.length = vals.length) (hv : ∀ v ∈ vals, lo ≤ v ∧ v ≤ hi) :
    lo ≤ (List.zipWith (· * ·) (idw_weights_sq sqd) vals).sum ∧
    (List.zipWith (· * ·) (idw_weights_sq sqd) vals).sum ≤ hi := by
  have hwlen : (idw_weights_sq sqd).length = vals.length := by
    rw [idw_weights_sq_length, hlen]
  have hwnn := idw_weights_sq_nonneg sqd hne
  have hsum := idw_weights_sq_sum_one sqd hne
  constructor
  · have h := le_sum_zipWith_mul lo (idw_weights_sq sqd) vals hwlen hwnn
      (fun x hx => (hv x hx).1)
    rw [hsum, mul_one] at h
    exact h
  · have h := sum_zipWith_mul_le hi (idw_weights_sq sqd) vals hwlen hwnn
      (fun x hx => (hv x hx).2)
    rw [hsum, mul_one] at h
    exact h

/-- C10: for a sample set of at least two points (where interpolation
succeeds), every value of the grid returned by `interpolar_idw` lies between
any lower and upper bound of the sample values (in particular between their
minimum and maximum): the output is a convex combination of selected sample
values under nonnegative weights summing to 1. -/
theorem claim_C10 (puntos queries : List (ℚ × ℚ)) (valores : List ℚ)
    (lo hi : ℚ) (hlen : valores.length = puntos.length)
    (h2 : 2 ≤ puntos.length) (hbound : ∀ v ∈ valores, lo ≤ v ∧ v ≤ hi) :
    ∀ out, interpolar_idw puntos queries valores = some out →
      ∀ r ∈ out, lo ≤ r ∧ r ≤ hi := by
  intro out hout r hr
  rw [interpolar_idw_eq_some puntos queries valores h2] at hout
  obtain rfl := (Option.some.inj hout).symm
  simp only [List.mem_map] at hr
  obtain ⟨q, hq, rfl⟩ := hr
  refine idw_sq_combo_bounds _ _ lo hi ?_ (by simp) ?_
  · have hk : (k_nearest puntos q (min 10 puntos.length)).length
        = min 10 puntos.length := by
      rw [length_k_nearest]; omega
    intro hnil
    rw [List.map_eq_nil_iff] at hnil
    rw [hnil] at hk
    simp at hk
    omega
  · intro v hv
    simp only [List.mem_map] at hv
    obtain ⟨i, hi, rfl⟩ := hv
    have hlt : i < valores.length := by
      rw [hlen]; exact mem_k_nearest_lt puntos q _ i hi
    exact hbound _ (getD_mem_of_lt valores i 0 hlt)

/-- C10 witness: two samples of value 0 bound the interpolated value at a
query by 0 from both sides. -/
theorem claim_C10_witness :
    (0:ℚ) ≤ ((interpolar_idw [((0:ℚ), (0:ℚ)), ((3:ℚ), (4:ℚ))]
        [((0:ℚ), (0:ℚ))] [(0:ℚ), (0:ℚ)]).getD []).getD 0 0 ∧
    ((interpolar_idw [((0:ℚ), (0:ℚ)), ((3:ℚ), (4:ℚ))]
        [((0:ℚ), (0:ℚ))] [(0:ℚ), (0:ℚ)]).getD []).getD 0 0 ≤ 0 := by
  have hidw : interpolar_idw [((0:ℚ), (0:ℚ)), ((3:ℚ), (4:ℚ))]
      [((0:ℚ), (0:ℚ))] [(0:ℚ), (0:ℚ)] = some [0] := by
    norm_num [interpolar_idw, k_nearest, sort_by_dist, insert_by_dist,
      sq_dist, idw_weights_sq, List.range_succ]
  have h := claim_C10 [((0:ℚ), (0:ℚ)), ((3:ℚ), (4:ℚ))] [((0:ℚ), (0:ℚ))]
    [(0:ℚ), (0:ℚ)] 0 0 rfl (by norm_num)
    (by intro v hv; fin_cases hv <;> norm_num) [0] hidw 0 (by simp)
  rw [hidw]
  exact h

/-- C7: every record emitted by the Voronoi zonation loop is generated by one
of the real input points (index below `n_real = len(puntos)`, so never by a
phantom bounding-box point), its region is non-degenerate (non-empty and
without the infinite vertex -1), its geometry is the non-empty intersection
of the cell with the buffered corridor, and its `haz_num`, `FS_min` and
point id are copied from the generating point. -/
theorem claim_C7 {α : Type} (vor : VoronoiDiagram) (puntos : List PuntoRec)
    (clip : List ℤ → Option α) :
    ∀ c ∈ crear_poligonos_voronoi vor puntos clip,
      ∃ i, i < puntos.length ∧
        vor.regions.getD (vor.point_region.getD i 0) [] ≠ [] ∧
        (-1 : ℤ) ∉ vor.regions.getD (vor.point_region.getD i 0) [] ∧
        clip (vor.regions.getD (vor.point_region.getD i 0) [])
          = some c.geometry ∧
        c.haz_num = (puntos.getD i ⟨0, none, 0⟩).haz_num ∧
        c.fs_min = (puntos.getD i ⟨0, none, 0⟩).fs_min ∧
        c.punto_id = (puntos.getD i ⟨0, none, 0⟩).id := by
  intro c hc
  simp only [crear_poligonos_voronoi, List.mem_filterMap, List.mem_range] at hc
  obtain ⟨i, hi, hfi⟩ := hc
  refine ⟨i, hi, ?_⟩
  by_cases hreg : vor.regions.getD (vor.point_region.getD i 0) [] = [] ∨
      (-1 : ℤ) ∈ vor.regions.getD (vor.point_region.getD i 0) []
  · rw [if_pos hreg] at hfi
    exact absurd hfi (by simp)
  · rw [if_neg hreg] at hfi
    push_neg at hreg
    cases hclip : clip (vor.regions.getD (vor.point_region.getD i 0) []) with
    | none =>
      rw [hclip] at hfi
      exact absurd hfi (by simp)
    | some g =>
      rw [hclip] at hfi
      have hceq := Option.some.inj hfi
      subst hceq
      exact ⟨hreg.1, hreg.2, rfl, rfl, rfl, rfl⟩

/-- C7 witness: a one-point diagram with a closed three-vertex region and an
identity clip emits exactly the cell of that point with its attributes. -/
theorem claim_C7_witness :
    ∃ i, i < 1 ∧
      ([[0, 1, 2]] : List (List ℤ)).getD (([0] : List ℕ).getD i 0) [] ≠ [] ∧
      (-1 : ℤ) ∉ ([[0, 1, 2]] : List (List ℤ)).getD
        (([0] : List ℕ).getD i 0) [] ∧
      some (([[0, 1, 2]] : List (List ℤ)).getD (([0] : List ℕ).getD i 0) [])
        = some ([0, 1, 2] : List ℤ) ∧
      (3 : ℤ) = (([⟨3, some 1, 7⟩] : List PuntoRec).getD i
        ⟨0, none, 0⟩).haz_num ∧
      (some 1 : Option ℚ) = (([⟨3, some 1, 7⟩] : List PuntoRec).getD i
        ⟨0, none, 0⟩).fs_min ∧
      (7 : ℕ) = (([⟨3, some 1, 7⟩] : List PuntoRec).getD i ⟨0, none, 0⟩).id :=
  claim_C7 (VoronoiDiagram.mk [0] [[0, 1, 2]]) [⟨3, some 1, 7⟩]
    (fun r => some r) ⟨[0, 1, 2], 3, some 1, 7⟩ (by decide)

/-- C8: for every scheme, the classifier maps NaN to the nodata class 0, and
the array classifier maps an all-NaN array to the all-zero array; a NaN input
is never assigned a class 1-5. -/
theorem claim_C8 (s : Scheme) :
    clasificar_fs s none = 0 ∧
    ∀ xs : List FSValue, (∀ v ∈ xs, v = none) →
      clasificar_fs_array s xs = List.replicate xs.length 0 := by
  refine ⟨rfl, ?_⟩
  intro xs
  induction xs with
  | nil => intro _; rfl
  | cons a t ih =>
    intro h
    have ha : a = none := h a (List.mem_cons_self a t)
    have ht := ih (fun v hv => h v (List.mem_cons_of_mem a hv))
    simp only [clasificar_fs_array] at ht
    simp [clasificar_fs_array, clasificar_fs_elem, ha, ht,
      List.replicate_succ]

/-- C8 witness: the nodata facts at the default scheme and a two-element
all-NaN array. -/
theorem claim_C8_witness :
    clasificar_fs UMBRALES_AMENAZA none = 0 ∧
    clasificar_fs_array UMBRALES_AMENAZA [none, none] = List.replicate 2 0 :=
  ⟨(claim_C8 UMBRALES_AMENAZA).1,
    (claim_C8 UMBRALES_AMENAZA).2 [none, none]
      (by intro v hv; fin_cases hv <;> rfl)⟩

/-- C9: the critical-point count is the number of points whose FS_min is
strictly below 1.0: a point at exactly 1.0 is not counted, a point strictly
below adds one, a NaN FS_min is not counted, and the scenario
[0.5, 0.9, 1.0, 2.0] yields exactly 2. -/
theorem claim_C9 :
    puntos_criticos_count [some (1/2), some (9/10), some 1, some 2] = 2 ∧
    (∀ (l : List FSValue) (x : ℚ), ¬ x < 1 →
      puntos_criticos_count (some x :: l) = puntos_criticos_count l) ∧
    (∀ (l : List FSValue) (x : ℚ), x < 1 →
      puntos_criticos_count (some x :: l) = puntos_criticos_count l + 1) ∧
    (∀ l : List FSValue,
      puntos_criticos_count (none :: l) = puntos_criticos_count l) := by
  refine ⟨?_, ?_, ?_, ?_⟩
  · norm_num [puntos_criticos_count, es_critico, List.filter_cons,
      List.filter_nil]
  · intro l x hx
    simp [puntos_criticos_count, List.filter_cons, es_critico, hx]
  · intro l x hx
    simp [puntos_criticos_count, List.filter_cons, es_critico, hx]
  · intro l
    simp [puntos_criticos_count, List.filter_cons, es_critico]

/-- C9 witness: a point at FS_min = 2 does not change the count and a point
at FS_min = 1/2 adds one. -/
theorem claim_C9_witness :
    puntos_criticos_count [some 2, some (1/2)] =
      puntos_criticos_count [some (1/2)] ∧
    puntos_criticos_count [some (1/2)] = puntos_criticos_count [] + 1 :=
  ⟨claim_C9.2.1 [some (1/2)] 2 (by norm_num),
    claim_C9.2.2.1 [] (1/2) (by norm_num)⟩
